import Mathlib

/-!
Verification of the tensionmap Blender add-on (src/tensionmap.py).

The add-on computes, per animation frame, a per-vertex tension metric for a
deformed mesh.  The numeric core is `tm_update` (src/tensionmap.py lines
128-263): it accumulates a signed weight per vertex from per-edge length
changes, clamps the result into stretch/squeeze channels, and optionally
broadcasts them into a per-loop-corner color layout.

Edge lengths are measured by the external bmesh library
(`bmesh.edges[i].calc_length()`, the Euclidean length of the edge); we embed
those measurements as rational-valued inputs, and embed the add-on's own
arithmetic over `ℚ`.  Python list indexing raises `IndexError` on
out-of-range access; where a claim depends on that behavior the embedding
returns `Except String _` with error `"IndexError"`.
-/

namespace Tensionmap

/-- The modifier types kept visible while taking the deformed-mesh snapshot
(src/tensionmap.py lines 41-45, `kept_modifiers`). -/
def kept_modifiers : List String :=
  ["ARMATURE", "MESH_CACHE", "CAST", "CURVE", "HOOK",
   "LAPLACIANSMOOTH", "LAPLACIANDEFORM",
   "LATTICE", "MESH_DEFORM", "SHRINKWRAP", "SIMPLE_DEFORM",
   "SMOOTH", "WARP", "WAVE", "CLOTH",
   "SOFT_BODY"]

/-- The clamp lambda of `tm_update` (src/tensionmap.py line 228):
`lambda value, lower, upper: lower if value < lower else upper if value > upper else value`. -/
def clamp (value lower upper : ℚ) : ℚ :=
  if value < lower then lower else if value > upper then upper else value

/-- The clamp function as the spec words it: `clamp(x, lo, hi) = max(lo, min(hi, x))`.
Stated separately so that agreement with the code's conditional `clamp` is a theorem,
not a definition. -/
def spec_clamp (x lo hi : ℚ) : ℚ := max lo (min hi x)

/-- Body of the per-vertex output loop of `tm_update` (src/tensionmap.py lines
233-243): both channels start at `tm_minimum`; a nonnegative weight sets the
stretch channel to `clamp(weight, minimum, maximum)`, a negative weight sets the
squeeze channel to `clamp(-weight, minimum, maximum)`.
Returns `(stretch_value, squeeze_value)`. -/
def stretch_squeeze_of_weight (mini maxi w : ℚ) : ℚ × ℚ :=
  if w ≥ 0 then (clamp w mini maxi, mini) else (mini, clamp (-w) mini maxi)

/-- The per-vertex output loop of `tm_update` over the whole weights array
(src/tensionmap.py lines 233-243), as the list of `(stretch, squeeze)` pairs. -/
def stretch_squeeze_values (mini maxi : ℚ) (weights : List ℚ) : List (ℚ × ℚ) :=
  weights.map (stretch_squeeze_of_weight mini maxi)

/-- One iteration of the weight-accumulation loop of `tm_update`
(src/tensionmap.py lines 205-217), given the two measured edge lengths and the
edge's endpoint indices:
`deformation_factor = (original_edge_length - deformed_edge_length) * tm_multiply`;
`weights[first_vertex] -= deformation_factor`;
`weights[second_vertex] -= deformation_factor`. -/
def edge_step (mult : ℚ) (weights : List ℚ) (orig deform : ℚ) (a b : ℕ) : List ℚ :=
  let factor := (orig - deform) * mult
  let w1 := weights.set a (weights.getD a 0 - factor)
  w1.set b (w1.getD b 0 - factor)

/-- The weight-accumulation loop `for i in range(num_edges)` of `tm_update`
(src/tensionmap.py lines 205-217), processing edge indices `0, …, k-1` in
order.  `origLens` is the rest edge-length table (cached `GeometryData` or the
rest bmesh's measurements), `defLens` the deformed bmesh's measurements, and
`edgeVerts i` the endpoint pair `deformed_bmesh.edges[i].verts`.  A lookup past
the end of a table raises `IndexError` in Python, embedded as `Except.error`. -/
def weights_loop (origLens defLens : List ℚ) (edgeVerts : List (ℕ × ℕ)) (mult : ℚ) :
    ℕ → List ℚ → Except String (List ℚ)
  | 0, ws => .ok ws
  | k + 1, ws =>
    match weights_loop origLens defLens edgeVerts mult k ws with
    | .error e => .error e
    | .ok ws1 =>
      match origLens.get? k, defLens.get? k, edgeVerts.get? k with
      | some o, some d, some ab => .ok (edge_step mult ws1 o d ab.1 ab.2)
      | _, _, _ => .error "IndexError"

/-- The numeric core of `tm_update` (src/tensionmap.py lines 186-243): start
from `weights = [0.0] * num_vertices`, run the edge loop over
`num_edges = len(obj.data.edges)` edges, then produce the per-vertex
`(stretch, squeeze)` pairs. -/
def tm_update_core (numVertices numEdges : ℕ) (origLens defLens : List ℚ)
    (edgeVerts : List (ℕ × ℕ)) (mult mini maxi : ℚ) : Except String (List (ℚ × ℚ)) :=
  match weights_loop origLens defLens edgeVerts mult numEdges (List.replicate numVertices 0) with
  | .error e => .error e
  | .ok ws => .ok (stretch_squeeze_values mini maxi ws)

/-- The signed contribution of edge `i` that `tm_update` subtracts from each of
the edge's two endpoint weights: `(original_edge_length - deformed_edge_length)
* tm_multiply` (src/tensionmap.py lines 211-212).  Out-of-range indices default
to `0`; theorems using this quantity require the indices to be in range. -/
def edge_factor (origLens defLens : List ℚ) (mult : ℚ) (i : ℕ) : ℚ :=
  (origLens.getD i 0 - defLens.getD i 0) * mult

/-- How many of edge `i`'s two endpoint slots name vertex `v` (0, 1 or 2):
the number of times `tm_update`'s edge loop touches `weights[v]` for edge `i`. -/
def edge_incidence (edgeVerts : List (ℕ × ℕ)) (v i : ℕ) : ℚ :=
  (if (edgeVerts.getD i (0, 0)).1 = v then 1 else 0) +
    (if (edgeVerts.getD i (0, 0)).2 = v then 1 else 0)

/-- A Blender mesh polygon as seen by `calculate_vertex_color_index_mapping`:
its loop indices and its vertex indices (Blender guarantees the two sequences
have the same length). -/
structure Polygon where
  loop_indices : List ℕ
  vertices : List ℕ

/-- The function `calculate_vertex_color_index_mapping` (src/tensionmap.py lines
72-85): walks every polygon's loop indices in order, pairing a running loop-corner
counter with `polygon.vertices[loop_vertex_idx]`.  Embedded as the list whose
`index`-th entry is the vertex index for loop corner `index`. -/
def calculate_vertex_color_index_mapping (polygons : List Polygon) : List ℕ :=
  polygons.flatMap fun p =>
    (List.range p.loop_indices.length).map fun k => p.vertices.getD k 0

/-- The per-vertex color tuples built by `tm_update` when vertex-color output is
enabled (src/tensionmap.py line 252): `(stretch_value, squeeze_value, 0.0, 1.0)`
— red, green, blue, alpha. -/
def vertex_colors_of (mini maxi : ℚ) (weights : List ℚ) : List (ℚ × ℚ × ℚ × ℚ) :=
  weights.map fun w =>
    ((stretch_squeeze_of_weight mini maxi w).1, (stretch_squeeze_of_weight mini maxi w).2, 0, 1)

/-- The vertex-color write loop of `tm_update` (src/tensionmap.py lines 262-263):
`colors_tension_data[i].color = vertex_colors[vertex_color_index_mapping[i]]` for
`i` in `range(tension_color_size)`, processing corners `0, …, n-1` in order.  A
missing mapping key (`KeyError`) or an out-of-range vertex-color index
(`IndexError`) is embedded as `none`. -/
def corner_colors_loop (vcolors : List (ℚ × ℚ × ℚ × ℚ)) (mapping : List ℕ) :
    ℕ → Option (List (ℚ × ℚ × ℚ × ℚ))
  | 0 => some []
  | n + 1 =>
    match corner_colors_loop vcolors mapping n, mapping.get? n with
    | some pre, some v =>
      match vcolors.get? v with
      | some c => some (pre ++ [c])
      | none => none
    | _, _ => none

/-- The cached per-object data (src/tensionmap.py lines 50-53, `GeometryData`). -/
structure GeometryData where
  original_edge_lengths : List ℚ
  vertex_color_index_mapping : List ℕ
deriving DecidableEq

/-- The slice of a Blender object that the geometry-cache functions read: an
identity for use as a cache key, the cache-enable flag, the rest mesh's edge
count, the rest mesh's per-edge lengths as measured by bmesh
(`bmesh_orig.edges[i].calc_length()`, the Euclidean rest distance between edge
`i`'s two endpoints — external to the add-on), and the polygons. -/
structure BObject where
  id : ℕ
  tm_enable_geometry_cache : Bool
  num_edges : ℕ
  rest_edge_length : ℕ → ℚ
  polygons : List Polygon

/-- The function `calculate_original_edge_lengths` (src/tensionmap.py lines
56-69): `edge_lengths[i] = bmesh_orig.edges[i].calc_length()` for every edge of
the rest mesh. -/
def calculate_original_edge_lengths (obj : BObject) : List ℚ :=
  (List.range obj.num_edges).map obj.rest_edge_length

/-- The `GeometryData` value that `update_geometry_cache_for_object` stores
(src/tensionmap.py lines 95-96). -/
def geometry_data_of (obj : BObject) : GeometryData :=
  ⟨calculate_original_edge_lengths obj, calculate_vertex_color_index_mapping obj.polygons⟩

/-- The global `geometry_cache` dict (src/tensionmap.py line 35), embedded as an
association list keyed by object identity (Python dict keys are unique; these
operations preserve that). -/
def Cache := List (ℕ × GeometryData)

/-- Dict lookup `geometry_cache[obj]` / membership `obj in geometry_cache`. -/
def cache_get : Cache → ℕ → Option GeometryData
  | [], _ => none
  | (k', v') :: rest, k => if k' = k then some v' else cache_get rest k

/-- Dict assignment `geometry_cache[obj] = data`. -/
def cache_set : Cache → ℕ → GeometryData → Cache
  | [], k, v => [(k, v)]
  | (k', v') :: rest, k, v =>
    if k' = k then (k, v) :: rest else (k', v') :: cache_set rest k v

/-- Dict deletion `del geometry_cache[obj]` guarded by `if obj in geometry_cache`
(src/tensionmap.py lines 98-99): removes the entry when present. -/
def cache_del : Cache → ℕ → Cache
  | [], _ => []
  | (k', v') :: rest, k =>
    if k' = k then cache_del rest k else (k', v') :: cache_del rest k

/-- The function `update_geometry_cache_for_object` (src/tensionmap.py lines
88-99): when the object's cache flag is on, store freshly computed
`GeometryData`; otherwise delete the object's entry if it has one. -/
def update_geometry_cache_for_object (cache : Cache) (obj : BObject) : Cache :=
  if obj.tm_enable_geometry_cache then cache_set cache obj.id (geometry_data_of obj)
  else cache_del cache obj.id

/-- The rest-data acquisition step of `tm_update` (src/tensionmap.py lines
191-198 and 254-257): with caching enabled, a missing entry triggers
`update_geometry_cache_for_object` and the (now present) entry is used; a
present entry is used as-is.  With caching disabled the rest data is recomputed
from the rest mesh on every call.  Returns the `GeometryData` used for this
frame, the cache afterwards, and an instrumentation flag recording whether the
rest data was recomputed during this call. -/
def tm_update_cache_phase (cache : Cache) (obj : BObject) : GeometryData × Cache × Bool :=
  if obj.tm_enable_geometry_cache then
    match cache_get cache obj.id with
    | some gd => (gd, cache, false)
    | none =>
      let cache1 := update_geometry_cache_for_object cache obj
      ((cache_get cache1 obj.id).getD (geometry_data_of obj), cache1, true)
  else (geometry_data_of obj, cache, true)

/-- A Blender modifier as seen by `tm_update`: its type string and its
viewport-visibility flag. -/
structure Modifier where
  type : String
  show_viewport : Bool
deriving DecidableEq

/-- The state-saving half of `tm_update`'s modifier loop (src/tensionmap.py
lines 163-166): `show_original_state[i] = modifier.show_viewport`. -/
def save_show_state (modifiers : List Modifier) : List Bool :=
  modifiers.map fun m => m.show_viewport

/-- The hiding half of `tm_update`'s modifier loop (src/tensionmap.py lines
172-173): a modifier whose type is not in `kept_modifiers` gets
`show_viewport = False`; others are untouched. -/
def hide_non_kept (modifiers : List Modifier) : List Modifier :=
  modifiers.map fun m =>
    if m.type ∉ kept_modifiers then { m with show_viewport := false } else m

/-- The restore loop of `tm_update` (src/tensionmap.py lines 182-183):
`obj.modifiers[i].show_viewport = show_original_state[i]` for every index. -/
def restore_show_state (modifiers : List Modifier) (saved : List Bool) : List Modifier :=
  List.zipWith (fun m b => { m with show_viewport := b }) modifiers saved

/-- The frame gate of `tm_update_handler` (src/tensionmap.py lines 266-283):
`last_processed_frame` starts as `None` (line 36, embedded `none`); a tick whose
`scene.frame_current` equals it is a no-op, any other tick records the frame and
runs the per-mesh sweep.  Returns the new `last_processed_frame` and whether the
sweep ran. -/
def tm_update_handler_gate (last : Option ℤ) (frame : ℤ) : Option ℤ × Bool :=
  if last = some frame then (last, false) else (some frame, true)

/-- The per-mesh inputs that `tm_update`'s numeric core reads for one tick:
counts from `obj.data`, the rest edge-length table in use (here the cached
`GeometryData` entry), the deformed bmesh's measured edge lengths and endpoint
pairs, and the three numeric parameters. -/
structure MeshInput where
  num_vertices : ℕ
  num_edges : ℕ
  original_edge_lengths : List ℚ
  deformed_edge_lengths : List ℚ
  edge_verts : List (ℕ × ℕ)
  tm_multiply : ℚ
  tm_minimum : ℚ
  tm_maximum : ℚ

/-- One `tm_update` call's numeric result for one mesh (src/tensionmap.py lines
186-243), with a Python `IndexError` embedded as `Except.error`. -/
def tm_update_for (m : MeshInput) : Except String (List (ℚ × ℚ)) :=
  tm_update_core m.num_vertices m.num_edges m.original_edge_lengths
    m.deformed_edge_lengths m.edge_verts m.tm_multiply m.tm_minimum m.tm_maximum

/-- The per-scene sweep of `tm_update_handler` (src/tensionmap.py lines
282-283): `for obj in scene.objects: tm_update(obj, bpy.context)`.  The sweep
has no exception handling, so an uncaught exception stops the loop: the result
records the outputs of the meshes processed before any failure, and the
propagated error if one occurred. -/
def tm_update_sweep : List MeshInput → List (List (ℚ × ℚ)) × Option String
  | [] => ([], none)
  | m :: rest =>
    match tm_update_for m with
    | .error e => ([], some e)
    | .ok out =>
      match tm_update_sweep rest with
      | (outs, err) => (out :: outs, err)

/-- A mesh whose cached rest edge-length table is stale: the rest table is
empty while the deformed mesh has one edge (topology edited after caching). -/
def mismatched_mesh : MeshInput :=
  ⟨2, 1, [], [1], [(0, 1)], 1, 0, 1⟩

/-- A mesh whose cached rest data agrees with its deformed topology. -/
def intact_mesh : MeshInput :=
  ⟨2, 1, [1], [1], [(0, 1)], 1, 0, 1⟩

/-- A concrete cache-enabled object used to exercise the geometry cache. -/
def test_obj : BObject :=
  ⟨5, true, 2, fun i => (i : ℚ) + 1, [⟨[0, 1, 2], [0, 1, 0]⟩]⟩

/-- A Blender `FloatProperty` declaration's numeric bounds, as used in
`add_props` (src/tensionmap.py lines 394-440). -/
structure FloatPropDef where
  lo : ℚ
  hi : ℚ
  default : ℚ

/-- The declaration of `tm_minimum` in `add_props` (src/tensionmap.py lines
411-417): `min=0.0, max=1.0, default=0.0`. -/
def tm_minimum_prop : FloatPropDef := ⟨0, 1, 0⟩

/-- The declaration of `tm_maximum` in `add_props` (src/tensionmap.py lines
418-424): `min=0.0, max=1.0, default=1.0`. -/
def tm_maximum_prop : FloatPropDef := ⟨0, 1, 1⟩

/-- Configuration-time assignment to a Blender `FloatProperty`: the host clamps
the assigned value into the declared hard range `[min, max]`; this is the only
validation `add_props` installs — `add_props` contains no check relating
`tm_minimum` to `tm_maximum`. -/
def set_float_prop (p : FloatPropDef) (v : ℚ) : ℚ :=
  if v < p.lo then p.lo else if v > p.hi then p.hi else v

end Tensionmap

namespace Tensionmap

/-! ### Helper lemmas -/

lemma getD_set_eq_ite (l : List ℚ) (i v : ℕ) (x : ℚ) :
    (l.set i x).getD v 0 = if i = v ∧ i < l.length then x else l.getD v 0 := by
  induction l generalizing i v with
  | nil => simp [List.getD]
  | cons a t ih =>
    cases i with
    | zero => cases v with
      | zero => simp
      | succ w => simp
    | succ j =>
      cases v with
      | zero => simp
      | succ w => simpa [Nat.succ_lt_succ_iff] using ih j w

lemma set_getD_self (l : List ℚ) (n : ℕ) : l.set n (l.getD n 0) = l := by
  induction l generalizing n with
  | nil => rfl
  | cons a t ih =>
    cases n with
    | zero => simp
    | succ j => simpa using ih j

lemma edge_step_eq (mult orig deform : ℚ) (ws : List ℚ) (a b : ℕ) :
    edge_step mult ws orig deform a b =
      (ws.set a (ws.getD a 0 - (orig - deform) * mult)).set b
        ((ws.set a (ws.getD a 0 - (orig - deform) * mult)).getD b 0 -
          (orig - deform) * mult) := rfl

lemma edge_step_length (mult orig deform : ℚ) (ws : List ℚ) (a b : ℕ) :
    (edge_step mult ws orig deform a b).length = ws.length := by
  simp [edge_step]

lemma edge_step_getD (mult orig deform : ℚ) (ws : List ℚ) (a b v : ℕ)
    (ha : a < ws.length) (hb : b < ws.length) :
    (edge_step mult ws orig deform a b).getD v 0 =
      ws.getD v 0 -
        ((orig - deform) * mult) * ((if a = v then 1 else 0) + (if b = v then 1 else 0)) := by
  unfold edge_step
  rw [getD_set_eq_ite, getD_set_eq_ite]
  simp only [List.length_set]
  split_ifs with h1 h2 h2 <;> (simp_all; try ring)

lemma edge_step_zero (mult orig deform : ℚ) (ws : List ℚ) (a b : ℕ)
    (h : (orig - deform) * mult = 0) : edge_step mult ws orig deform a b = ws := by
  rw [edge_step_eq, h, sub_zero, sub_zero, set_getD_self, set_getD_self]

lemma weights_loop_ok_spec (origLens defLens : List ℚ) (edgeVerts : List (ℕ × ℕ)) (mult : ℚ) :
    ∀ (k : ℕ) (ws0 ws : List ℚ),
      weights_loop origLens defLens edgeVerts mult k ws0 = .ok ws →
      (∀ i, i < k → (edgeVerts.getD i (0, 0)).1 < ws0.length ∧
        (edgeVerts.getD i (0, 0)).2 < ws0.length) →
      ws.length = ws0.length ∧
        ∀ v, ws.getD v 0 = ws0.getD v 0 -
          ∑ i in Finset.range k,
            edge_factor origLens defLens mult i * edge_incidence edgeVerts v i := by
  intro k
  induction k with
  | zero =>
    intro ws0 ws h _
    simp only [weights_loop] at h
    cases h
    simp
  | succ k ih =>
    intro ws0 ws h hv
    rw [weights_loop] at h
    cases hrec : weights_loop origLens defLens edgeVerts mult k ws0 with
    | error e => rw [hrec] at h; exact absurd h (by simp)
    | ok ws1 =>
      rw [hrec] at h
      cases ho : origLens.get? k with
      | none => rw [ho] at h; exact absurd h (by simp)
      | some o =>
        cases hd : defLens.get? k with
        | none => rw [ho, hd] at h; exact absurd h (by simp)
        | some d =>
          cases he : edgeVerts.get? k with
          | none => rw [ho, hd, he] at h; exact absurd h (by simp)
          | some ab =>
            rw [ho, hd, he] at h
            simp only [Except.ok.injEq] at h
            obtain ⟨hlen1, hval1⟩ := ih ws0 ws1 hrec fun i hi => hv i (Nat.lt_succ_of_lt hi)
            have hab : edgeVerts.getD k (0, 0) = ab := by
              rw [List.getD_eq_getD_get?, he]; rfl
            have hoD : origLens.getD k 0 = o := by
              rw [List.getD_eq_getD_get?, ho]; rfl
            have hdD : defLens.getD k 0 = d := by
              rw [List.getD_eq_getD_get?, hd]; rfl
            have hva := (hv k (Nat.lt_succ_self k)).1
            have hvb := (hv k (Nat.lt_succ_self k)).2
            rw [hab] at hva hvb
            constructor
            · rw [← h, edge_step_length, hlen1]
            · intro v
              rw [← h,
                edge_step_getD mult o d ws1 ab.1 ab.2 v (hlen1 ▸ hva) (hlen1 ▸ hvb),
                hval1 v, Finset.sum_range_succ]
              simp only [edge_factor, edge_incidence, hab, hoD, hdD]
              ring

lemma weights_loop_id (origLens defLens : List ℚ) (edgeVerts : List (ℕ × ℕ)) (mult : ℚ) :
    ∀ (k : ℕ) (ws0 : List ℚ),
      k ≤ origLens.length → k ≤ defLens.length → k ≤ edgeVerts.length →
      (∀ i, i < k → (origLens.getD i 0 - defLens.getD i 0) * mult = 0) →
      weights_loop origLens defLens edgeVerts mult k ws0 = .ok ws0 := by
  intro k
  induction k with
  | zero => intro ws0 _ _ _ _; rfl
  | succ k ih =>
    intro ws0 ho hd he hfac
    have hko : k < origLens.length := Nat.lt_of_succ_le ho
    have hkd : k < defLens.length := Nat.lt_of_succ_le hd
    have hke : k < edgeVerts.length := Nat.lt_of_succ_le he
    rw [weights_loop,
      ih ws0 (Nat.le_of_succ_le ho) (Nat.le_of_succ_le hd) (Nat.le_of_succ_le he)
        (fun i hi => hfac i (Nat.lt_succ_of_lt hi)),
      List.get?_eq_getElem?, List.getElem?_eq_getElem hko,
      List.get?_eq_getElem?, List.getElem?_eq_getElem hkd,
      List.get?_eq_getElem?, List.getElem?_eq_getElem hke]
    have hfk := hfac k (Nat.lt_succ_self k)
    rw [List.getD_eq_getElem _ _ hko, List.getD_eq_getElem _ _ hkd] at hfk
    simp only [edge_step_zero _ _ _ _ _ _ hfk]

lemma weights_loop_untouched (origLens defLens : List ℚ) (edgeVerts : List (ℕ × ℕ))
    (mult : ℚ) (v : ℕ) :
    ∀ (k : ℕ) (ws0 ws : List ℚ),
      weights_loop origLens defLens edgeVerts mult k ws0 = .ok ws →
      (∀ i, i < k → (edgeVerts.getD i (0, 0)).1 ≠ v ∧ (edgeVerts.getD i (0, 0)).2 ≠ v) →
      ws.getD v 0 = ws0.getD v 0 := by
  intro k
  induction k with
  | zero =>
    intro ws0 ws h _
    simp only [weights_loop] at h
    cases h
    rfl
  | succ k ih =>
    intro ws0 ws h hnot
    rw [weights_loop] at h
    cases hrec : weights_loop origLens defLens edgeVerts mult k ws0 with
    | error e => rw [hrec] at h; exact absurd h (by simp)
    | ok ws1 =>
      rw [hrec] at h
      cases ho : origLens.get? k with
      | none => rw [ho] at h; exact absurd h (by simp)
      | some o =>
        cases hd : defLens.get? k with
        | none => rw [ho, hd] at h; exact absurd h (by simp)
        | some d =>
          cases he : edgeVerts.get? k with
          | none => rw [ho, hd, he] at h; exact absurd h (by simp)
          | some ab =>
            rw [ho, hd, he] at h
            simp only [Except.ok.injEq] at h
            have hab : edgeVerts.getD k (0, 0) = ab := by
              rw [List.getD_eq_getD_get?, he]; rfl
            have hne := hnot k (Nat.lt_succ_self k)
            rw [hab] at hne
            rw [← h, edge_step_eq]
            rw [getD_set_eq_ite]
            rw [if_neg (fun hc => hne.2 hc.1)]
            rw [getD_set_eq_ite]
            rw [if_neg (fun hc => hne.1 hc.1)]
            exact ih ws0 ws1 hrec fun i hi => hnot i (Nat.lt_succ_of_lt hi)

lemma weights_loop_length (origLens defLens : List ℚ) (edgeVerts : List (ℕ × ℕ)) (mult : ℚ) :
    ∀ (k : ℕ) (ws0 ws : List ℚ),
      weights_loop origLens defLens edgeVerts mult k ws0 = .ok ws →
      ws.length = ws0.length := by
  intro k
  induction k with
  | zero =>
    intro ws0 ws h
    simp only [weights_loop] at h
    cases h
    rfl
  | succ k ih =>
    intro ws0 ws h
    rw [weights_loop] at h
    cases hrec : weights_loop origLens defLens edgeVerts mult k ws0 with
    | error e => rw [hrec] at h; exact absurd h (by simp)
    | ok ws1 =>
      rw [hrec] at h
      cases ho : origLens.get? k with
      | none => rw [ho] at h; exact absurd h (by simp)
      | some o =>
        cases hd : defLens.get? k with
        | none => rw [ho, hd] at h; exact absurd h (by simp)
        | some d =>
          cases he : edgeVerts.get? k with
          | none => rw [ho, hd, he] at h; exact absurd h (by simp)
          | some ab =>
            rw [ho, hd, he] at h
            simp only [Except.ok.injEq] at h
            rw [← h, edge_step_length]
            exact ih ws0 ws1 hrec

lemma weights_loop_error_msg (origLens defLens : List ℚ) (edgeVerts : List (ℕ × ℕ)) (mult : ℚ) :
    ∀ (k : ℕ) (ws0 : List ℚ) (e : String),
      weights_loop origLens defLens edgeVerts mult k ws0 = .error e →
      e = "IndexError" := by
  intro k
  induction k with
  | zero =>
    intro ws0 e h
    exact absurd h (by simp [weights_loop])
  | succ k ih =>
    intro ws0 e h
    rw [weights_loop] at h
    cases hrec : weights_loop origLens defLens edgeVerts mult k ws0 with
    | error e1 =>
      rw [hrec] at h
      simp only [Except.error.injEq] at h
      exact h ▸ ih ws0 e1 hrec
    | ok ws1 =>
      rw [hrec] at h
      cases ho : origLens.get? k with
      | none => rw [ho] at h; cases hd : defLens.get? k <;> cases he : edgeVerts.get? k <;>
          rw [hd, he] at h <;> simpa using h.symm
      | some o =>
        cases hd : defLens.get? k with
        | none => rw [ho, hd] at h; cases he : edgeVerts.get? k <;>
            rw [he] at h <;> simpa using h.symm
        | some d =>
          cases he : edgeVerts.get? k with
          | none => rw [ho, hd, he] at h; simpa using h.symm
          | some ab => rw [ho, hd, he] at h; exact absurd h (by simp)

lemma weights_loop_orig_short (origLens defLens : List ℚ) (edgeVerts : List (ℕ × ℕ))
    (mult : ℚ) :
    ∀ (k : ℕ) (ws0 : List ℚ),
      origLens.length < k →
      weights_loop origLens defLens edgeVerts mult k ws0 = .error "IndexError" := by
  intro k
  induction k with
  | zero => intro ws0 h; exact absurd h (Nat.not_lt_zero _)
  | succ k ih =>
    intro ws0 hk
    rw [weights_loop]
    rcases Nat.lt_succ_iff_lt_or_eq.mp hk with hlt | heq
    · rw [ih ws0 hlt]
    · cases hrec : weights_loop origLens defLens edgeVerts mult k ws0 with
      | error e =>
        have he := weights_loop_error_msg origLens defLens edgeVerts mult k ws0 e hrec
        subst he
        rfl
      | ok ws1 =>
        have ho : origLens.get? k = none := by
          rw [List.get?_eq_getElem?, List.getElem?_eq_none]
          exact Nat.le_of_eq heq
        rw [ho]

lemma replicate_getD_zero (n v : ℕ) : (List.replicate n (0 : ℚ)).getD v 0 = 0 := by
  rw [List.getD_eq_getD_get?, List.get?_eq_getElem?, List.getElem?_getD_replicate_default_eq]

lemma cache_get_set_self (c : Cache) (k : ℕ) (v : GeometryData) :
    cache_get (cache_set c k v) k = some v := by
  induction c with
  | nil => simp [cache_set, cache_get]
  | cons e rest ih =>
    by_cases h : e.1 = k
    · simp [cache_set, cache_get, h]
    · simp [cache_set, cache_get, h, ih]

lemma cache_get_del_self (c : Cache) (k : ℕ) :
    cache_get (cache_del c k) k = none := by
  induction c with
  | nil => rfl
  | cons e rest ih =>
    by_cases h : e.1 = k
    · simp [cache_del, h, ih]
    · simp [cache_del, cache_get, h, ih]

lemma corner_colors_loop_spec (vcolors : List (ℚ × ℚ × ℚ × ℚ)) (mapping : List ℕ) :
    ∀ (n : ℕ) (cs : List (ℚ × ℚ × ℚ × ℚ)),
      corner_colors_loop vcolors mapping n = some cs →
      cs.length = n ∧
        ∀ c v, c < n → mapping.get? c = some v → cs.get? c = vcolors.get? v := by
  intro n
  induction n with
  | zero =>
    intro cs h
    simp only [corner_colors_loop, Option.some.injEq] at h
    subst h
    exact ⟨rfl, fun c v hc _ => absurd hc (Nat.not_lt_zero c)⟩
  | succ n ih =>
    intro cs h
    rw [corner_colors_loop] at h
    cases hrec : corner_colors_loop vcolors mapping n with
    | none => rw [hrec] at h; exact absurd h (by simp)
    | some pre =>
      rw [hrec] at h
      cases hm : mapping.get? n with
      | none => rw [hm] at h; exact absurd h (by simp)
      | some v0 =>
        rw [hm] at h
        dsimp only [] at h
        cases hv : vcolors.get? v0 with
        | none => rw [hv] at h; exact absurd h (by simp)
        | some c0 =>
          rw [hv] at h
          simp only [Option.some.injEq] at h
          obtain ⟨hlen, hval⟩ := ih pre hrec
          constructor
          · rw [← h, List.length_append, hlen]; rfl
          · intro c v hc hmc
            rcases Nat.lt_succ_iff_lt_or_eq.mp hc with hlt | heq
            · rw [← h, List.get?_append (hlen ▸ hlt)]
              exact hval c v hlt hmc
            · subst heq
              rw [hm, Option.some.injEq] at hmc
              subst hmc
              rw [← h, ← hlen, List.get?_concat_length, hv]

lemma clamp_eq_spec_clamp (lo hi : ℚ) (h : lo ≤ hi) (x : ℚ) :
    clamp x lo hi = spec_clamp x lo hi := by
  unfold clamp spec_clamp
  split_ifs with h1 h2
  · rw [min_eq_right (le_of_lt (lt_of_lt_of_le h1 h)), max_eq_left (le_of_lt h1)]
  · rw [min_eq_left (le_of_lt h2), max_eq_right h]
  · push_neg at h1 h2
    rw [min_eq_right h2, max_eq_right h1]

lemma clamp_zero_eq_min (lo hi : ℚ) (hlo : 0 ≤ lo) (hhi : 0 ≤ hi) :
    clamp 0 lo hi = lo := by
  unfold clamp
  rcases lt_or_eq_of_le hlo with h | h
  · rw [if_pos h]
  · rw [if_neg (by rw [← h]; exact lt_irrefl 0), if_neg (not_lt.mpr hhi), ← h]

lemma stretch_squeeze_of_weight_zero (mini maxi : ℚ) (hmin : 0 ≤ mini) (hmax : 0 ≤ maxi) :
    stretch_squeeze_of_weight mini maxi 0 = (mini, mini) := by
  rw [stretch_squeeze_of_weight, if_pos (le_refl (0 : ℚ)), clamp_zero_eq_min mini maxi hmin hmax]

lemma tm_update_sweep_cons_ok (m : MeshInput) (L : List MeshInput) (out : List (ℚ × ℚ))
    (h : tm_update_for m = .ok out) :
    tm_update_sweep (m :: L) = (out :: (tm_update_sweep L).1, (tm_update_sweep L).2) := by
  rw [tm_update_sweep, h]

lemma tm_update_sweep_cons_error (m : MeshInput) (L : List MeshInput) (e : String)
    (h : tm_update_for m = .error e) :
    tm_update_sweep (m :: L) = ([], some e) := by
  rw [tm_update_sweep, h]

lemma tm_update_for_orig_short (m : MeshInput)
    (hm : m.original_edge_lengths.length < m.num_edges) :
    tm_update_for m = .error "IndexError" := by
  rw [tm_update_for, tm_update_core,
    weights_loop_orig_short m.original_edge_lengths m.deformed_edge_lengths m.edge_verts
      m.tm_multiply m.num_edges _ hm]

lemma tm_update_for_intact : tm_update_for intact_mesh = .ok [(0, 0), (0, 0)] := by
  show tm_update_core 2 1 [1] [1] [(0, 1)] 1 0 1 = .ok [(0, 0), (0, 0)]
  rw [tm_update_core, weights_loop_id [1] [1] [(0, 1)] 1 1 _ (Nat.le_refl 1) (Nat.le_refl 1)
    (Nat.le_refl 1) fun i _ => by rw [sub_self, zero_mul]]
  show Except.ok (stretch_squeeze_values 0 1 (List.replicate 2 0)) = _
  rw [stretch_squeeze_values, List.map_replicate,
    stretch_squeeze_of_weight_zero 0 1 (le_refl 0) zero_le_one]
  rfl

lemma tm_update_for_mismatched : tm_update_for mismatched_mesh = .error "IndexError" :=
  tm_update_for_orig_short mismatched_mesh Nat.zero_lt_one

/-! ### Claim theorems -/

/-- C1: starting from `weights = [0.0] * num_vertices`, the edge loop subtracts
`deformation_factor = (original_edge_length - deformed_edge_length) *
tm_multiply` from both endpoint weights of every edge, so each final weight is
minus the sum of the edge factors of the incident edges; in particular a vertex
shared by an edge stretched by `+1.0` and an edge compressed by `-0.3` (signed
contributions) nets to weight `0.7` before clamping. -/
theorem claim_C1 (numVertices numEdges : ℕ) (origLens defLens : List ℚ)
    (edgeVerts : List (ℕ × ℕ)) (mult : ℚ) (ws : List ℚ)
    (h : weights_loop origLens defLens edgeVerts mult numEdges
      (List.replicate numVertices 0) = .ok ws)
    (hv : ∀ i, i < numEdges → (edgeVerts.getD i (0, 0)).1 < numVertices ∧
      (edgeVerts.getD i (0, 0)).2 < numVertices) :
    (∀ v, ws.getD v 0 =
      -∑ i in Finset.range numEdges,
        edge_factor origLens defLens mult i * edge_incidence edgeVerts v i) ∧
    (weights_loop [1, 1] [2, 7/10] [(0, 1), (1, 2)] 1 2 (List.replicate 3 0) =
        .ok [1, 7/10, -3/10] ∧
      ([1, (7 : ℚ)/10, -3/10] : List ℚ).getD 1 0 = 7/10) := by
  refine ⟨?_, ?_, rfl⟩
  · intro v
    have hlen : (List.replicate numVertices (0 : ℚ)).length = numVertices := by simp
    obtain ⟨-, hval⟩ := weights_loop_ok_spec origLens defLens edgeVerts mult numEdges
      (List.replicate numVertices 0) ws h (by intro i hi; rw [hlen]; exact hv i hi)
    rw [hval v, replicate_getD_zero, zero_sub]
  · simp only [weights_loop, edge_step, List.replicate, List.getD]
    norm_num

/-- Witness for C1 at the two-edge scenario: edges `(0,1)` and `(1,2)` with
rest lengths `1`, deformed lengths `2` and `0.7`, multiplier `1`. -/
theorem claim_C1_witness :
    weights_loop [1, 1] [2, 7/10] [(0, 1), (1, 2)] 1 2 (List.replicate 3 0) =
      .ok [1, 7/10, -3/10] ∧
    (∀ i, i < 2 → (([(0, 1), (1, 2)] : List (ℕ × ℕ)).getD i (0, 0)).1 < 3 ∧
      (([(0, 1), (1, 2)] : List (ℕ × ℕ)).getD i (0, 0)).2 < 3) ∧
    ((∀ v, ([1, (7 : ℚ)/10, -3/10] : List ℚ).getD v 0 =
      -∑ i in Finset.range 2,
        edge_factor [1, 1] [2, 7/10] 1 i * edge_incidence [(0, 1), (1, 2)] v i) ∧
    (weights_loop [1, 1] [2, 7/10] [(0, 1), (1, 2)] 1 2 (List.replicate 3 0) =
        .ok [1, 7/10, -3/10] ∧
      ([1, (7 : ℚ)/10, -3/10] : List ℚ).getD 1 0 = 7/10)) := by
  have heval : weights_loop [1, 1] [2, 7/10] [(0, 1), (1, 2)] 1 2 (List.replicate 3 0) =
      .ok [1, 7/10, -3/10] := by
    simp only [weights_loop, edge_step, List.replicate, List.getD]
    norm_num
  have hv : ∀ i, i < 2 → (([(0, 1), (1, 2)] : List (ℕ × ℕ)).getD i (0, 0)).1 < 3 ∧
      (([(0, 1), (1, 2)] : List (ℕ × ℕ)).getD i (0, 0)).2 < 3 := by decide
  exact ⟨heval, hv, claim_C1 3 2 [1, 1] [2, 7/10] [(0, 1), (1, 2)] 1 [1, 7/10, -3/10] heval hv⟩

/-- C5: if every deformed edge length equals its rest length, or the multiplier
is `0`, every weight stays `0` and the output is `(minimum, minimum)` for every
vertex; independently, a vertex with no incident edges keeps weight `0` and
yields `(minimum, minimum)` whatever the deformed lengths are.  The
nonnegativity hypotheses reflect the `[0, 1]` ranges `add_props` declares for
`tm_minimum` and `tm_maximum`. -/
theorem claim_C5 (numVertices numEdges : ℕ) (origLens defLens : List ℚ)
    (edgeVerts : List (ℕ × ℕ)) (mult mini maxi : ℚ)
    (ho : numEdges ≤ origLens.length) (hd : numEdges ≤ defLens.length)
    (he : numEdges ≤ edgeVerts.length)
    (hid : (∀ i, i < numEdges → origLens.getD i 0 = defLens.getD i 0) ∨ mult = 0)
    (hmin : 0 ≤ mini) (hmax : 0 ≤ maxi) :
    tm_update_core numVertices numEdges origLens defLens edgeVerts mult mini maxi =
      .ok (List.replicate numVertices (mini, mini)) ∧
    ∀ (defLens2 ws2 : List ℚ) (v : ℕ),
      weights_loop origLens defLens2 edgeVerts mult numEdges
        (List.replicate numVertices 0) = .ok ws2 →
      (∀ i, i < numEdges →
        (edgeVerts.getD i (0, 0)).1 ≠ v ∧ (edgeVerts.getD i (0, 0)).2 ≠ v) →
      v < numVertices →
      ws2.getD v 0 = 0 ∧
        (stretch_squeeze_values mini maxi ws2).get? v = some (mini, mini) := by
  constructor
  · have hfac : ∀ i, i < numEdges → (origLens.getD i 0 - defLens.getD i 0) * mult = 0 := by
      rcases hid with hid | hid
      · intro i hi; rw [hid i hi, sub_self, zero_mul]
      · intro i hi; rw [hid, mul_zero]
    rw [tm_update_core, weights_loop_id origLens defLens edgeVerts mult numEdges _ ho hd he hfac]
    show Except.ok (stretch_squeeze_values mini maxi (List.replicate numVertices 0)) = _
    rw [stretch_squeeze_values, List.map_replicate,
      stretch_squeeze_of_weight_zero mini maxi hmin hmax]
  · intro defLens2 ws2 v hloop hnot hvlt
    have hw0 : ws2.getD v 0 = 0 := by
      rw [weights_loop_untouched origLens defLens2 edgeVerts mult v numEdges _ _ hloop hnot,
        replicate_getD_zero]
    refine ⟨hw0, ?_⟩
    have hlen2 : ws2.length = numVertices := by
      rw [weights_loop_length origLens defLens2 edgeVerts mult numEdges _ _ hloop]
      simp
    have hvlen : v < ws2.length := by rw [hlen2]; exact hvlt
    rw [stretch_squeeze_values, List.get?_map, List.get?_eq_getElem?,
      List.getElem?_eq_getElem hvlen, Option.map_some']
    have hzero : ws2[v] = 0 := by rw [← List.getD_eq_getElem ws2 0 hvlen, hw0]
    rw [hzero, stretch_squeeze_of_weight_zero mini maxi hmin hmax]

/-- Witness for C5: one edge `(0, 0)` with identical rest and deformed length,
and vertex `1` incident to no edge. -/
theorem claim_C5_witness :
    ((1 : ℕ) ≤ ([1] : List ℚ).length) ∧
    ((∀ i, i < 1 → ([1] : List ℚ).getD i 0 = ([1] : List ℚ).getD i 0) ∨ (1 : ℚ) = 0) ∧
    ((0 : ℚ) ≤ 0) ∧ ((0 : ℚ) ≤ 1) ∧
    (tm_update_core 2 1 [1] [1] [(0, 0)] 1 0 1 = .ok (List.replicate 2 (0, 0)) ∧
      ∀ (defLens2 ws2 : List ℚ) (v : ℕ),
        weights_loop [1] defLens2 [(0, 0)] 1 1 (List.replicate 2 0) = .ok ws2 →
        (∀ i, i < 1 →
          (([(0, 0)] : List (ℕ × ℕ)).getD i (0, 0)).1 ≠ v ∧
            (([(0, 0)] : List (ℕ × ℕ)).getD i (0, 0)).2 ≠ v) →
        v < 2 →
        ws2.getD v 0 = 0 ∧ (stretch_squeeze_values 0 1 ws2).get? v = some (0, 0)) :=
  ⟨Nat.le_refl 1, Or.inl fun _ _ => rfl, le_refl 0, zero_le_one,
    claim_C5 2 1 [1] [1] [(0, 0)] 1 0 1 (Nat.le_refl 1) (Nat.le_refl 1) (Nat.le_refl 1)
      (Or.inl fun _ _ => rfl) (le_refl 0) zero_le_one⟩

/-- C7: the frame gate (`tm_update_handler` with `last_processed_frame`) runs
the per-mesh pipeline exactly once for two consecutive ticks with the same
frame index (the second tick is a no-op), runs whenever the tick's frame index
differs from the last processed one, and always runs on the first tick because
the initial `last_processed_frame = None` compares unequal to every frame. -/
theorem claim_C7 : ∀ (last : Option ℤ) (f : ℤ),
    tm_update_handler_gate none f = (some f, true) ∧
    ((tm_update_handler_gate last f).2 = true ↔ last ≠ some f) ∧
    (tm_update_handler_gate last f).1 = some f ∧
    (tm_update_handler_gate (tm_update_handler_gate last f).1 f).2 = false := by
  intro last f
  unfold tm_update_handler_gate
  by_cases h : last = some f <;> simp [h]

/-- C10: after a normal return of `tm_update`, every modifier's `show_viewport`
flag equals its value on entry, even though the hiding pass sets
`show_viewport = False` on every modifier whose type is not in
`kept_modifiers`. -/
theorem claim_C10 (modifiers : List Modifier) :
    restore_show_state (hide_non_kept modifiers) (save_show_state modifiers) = modifiers ∧
    ∀ i m, (hide_non_kept modifiers).get? i = some m → m.type ∉ kept_modifiers →
      m.show_viewport = false := by
  constructor
  · induction modifiers with
    | nil => rfl
    | cons mo t ih =>
      have hhead : (fun m b => { m with show_viewport := b })
          (if mo.type ∉ kept_modifiers then { mo with show_viewport := false } else mo)
          mo.show_viewport = mo := by
        cases mo
        split_ifs <;> rfl
      calc restore_show_state (hide_non_kept (mo :: t)) (save_show_state (mo :: t))
          = (fun m b => { m with show_viewport := b })
              (if mo.type ∉ kept_modifiers then { mo with show_viewport := false } else mo)
              mo.show_viewport :: restore_show_state (hide_non_kept t) (save_show_state t) := rfl
        _ = mo :: t := by rw [hhead, ih]
  · intro i m h hmk
    rw [hide_non_kept, List.get?_map] at h
    cases horig : modifiers.get? i with
    | none => rw [horig] at h; exact absurd h (by simp)
    | some orig =>
      rw [horig] at h
      simp only [Option.map_some', Option.some.injEq] at h
      by_cases hmem : orig.type ∈ kept_modifiers
      · rw [if_neg (not_not_intro hmem)] at h
        exact absurd (h ▸ hmem) hmk
      · rw [if_pos hmem] at h
        rw [← h]

/-- C2: for every vertex, the output is `(clamp(w, minimum, maximum), minimum)`
when `weights[v] ≥ 0` and `(minimum, clamp(-w, minimum, maximum))` otherwise,
with `clamp(x, lo, hi) = max(lo, min(hi, x))`; the code's conditional clamp
lambda agrees with that definition under the precondition `minimum ≤ maximum`. -/
theorem claim_C2 (mini maxi : ℚ) (hle : mini ≤ maxi) :
    (∀ x, clamp x mini maxi = spec_clamp x mini maxi) ∧
    ∀ (weights : List ℚ) (v : ℕ) (w : ℚ), weights.get? v = some w →
      (stretch_squeeze_values mini maxi weights).get? v =
        some (if w ≥ 0 then (spec_clamp w mini maxi, mini)
          else (mini, spec_clamp (-w) mini maxi)) := by
  refine ⟨clamp_eq_spec_clamp mini maxi hle, ?_⟩
  intro weights v w hw
  rw [stretch_squeeze_values, List.get?_map, hw, Option.map_some']
  unfold stretch_squeeze_of_weight
  split_ifs with h
  · rw [clamp_eq_spec_clamp mini maxi hle]
  · rw [clamp_eq_spec_clamp mini maxi hle]

/-- Witness for C2 at `minimum = 0`, `maximum = 1`. -/
theorem claim_C2_witness :
    ((0 : ℚ) ≤ 1) ∧
    ((∀ x, clamp x 0 1 = spec_clamp x 0 1) ∧
      ∀ (weights : List ℚ) (v : ℕ) (w : ℚ), weights.get? v = some w →
        (stretch_squeeze_values 0 1 weights).get? v =
          some (if w ≥ 0 then (spec_clamp w 0 1, 0) else (0, spec_clamp (-w) 0 1))) :=
  ⟨zero_le_one, claim_C2 0 1 zero_le_one⟩

/-- C6: for every vertex of every computed output, `stretch = minimum` or
`squeeze = minimum`; and at the boundary `weights[v] = 0` both channels equal
`minimum` (using that the configured `minimum` and `maximum` are nonnegative,
which `add_props` guarantees via the declared `[0, 1]` property ranges). -/
theorem claim_C6 (mini maxi : ℚ) (hmin : 0 ≤ mini) (hmax : 0 ≤ maxi) (weights : List ℚ) :
    (∀ v s q, (stretch_squeeze_values mini maxi weights).get? v = some (s, q) →
      s = mini ∨ q = mini) ∧
    ∀ v, weights.get? v = some 0 →
      (stretch_squeeze_values mini maxi weights).get? v = some (mini, mini) := by
  constructor
  · intro v s q h
    rw [stretch_squeeze_values, List.get?_map] at h
    cases hw : weights.get? v with
    | none => rw [hw] at h; exact absurd h (by simp)
    | some w =>
      rw [hw] at h
      simp only [Option.map_some', Option.some.injEq] at h
      rw [stretch_squeeze_of_weight] at h
      split_ifs at h
      · exact Or.inr (congrArg Prod.snd h).symm
      · exact Or.inl (congrArg Prod.fst h).symm
  · intro v hw
    rw [stretch_squeeze_values, List.get?_map, hw, Option.map_some',
      stretch_squeeze_of_weight, if_pos le_rfl, clamp_zero_eq_min mini maxi hmin hmax]

/-- Witness for C6 at `minimum = 0`, `maximum = 1`, `weights = [0]`. -/
theorem claim_C6_witness :
    ((0 : ℚ) ≤ 0) ∧ ((0 : ℚ) ≤ 1) ∧
    ((∀ v s q, (stretch_squeeze_values 0 1 [0]).get? v = some (s, q) → s = 0 ∨ q = 0) ∧
      ∀ v, ([0] : List ℚ).get? v = some 0 →
        (stretch_squeeze_values 0 1 [0]).get? v = some (0, 0)) :=
  ⟨le_refl 0, zero_le_one, claim_C6 0 1 (le_refl 0) zero_le_one [0]⟩

/-- Counterexample to C3 as stated: the configuration `tm_minimum = 1.0`,
`tm_maximum = 0.0` (so `minimum > maximum`) is accepted unchanged at
configuration time — each property setter only clamps into its own declared
`[0, 1]` range — and the per-frame loop still computes output with the
inverted range instead of rejecting it. -/
theorem claim_C3_counterexample :
    set_float_prop tm_minimum_prop 1 = 1 ∧
    set_float_prop tm_maximum_prop 0 = 0 ∧
    (1 : ℚ) > 0 ∧
    stretch_squeeze_values 1 0 [1/2] = [(1, 1)] := by
  refine ⟨?_, ?_, one_pos, ?_⟩
  · rw [set_float_prop, tm_minimum_prop, if_neg (by norm_num), if_neg (by norm_num)]
  · rw [set_float_prop, tm_maximum_prop, if_neg (by norm_num), if_neg (by norm_num)]
  · rw [stretch_squeeze_values, List.map_cons, List.map_nil,
      stretch_squeeze_of_weight, if_pos (by norm_num), clamp,
      if_pos (by norm_num)]

/-- C3 amended: configurations with `minimum > maximum` are not rejected at
any time.  Configuration time only clamps each of `tm_minimum` and
`tm_maximum` individually into its declared `[0, 1]` hard range (the only
validation `add_props` installs), a pair with `minimum > maximum` is stored
as-is, and the per-frame loop runs unchanged on every vertex with the
inverted range. -/
theorem claim_C3 :
    (∀ v : ℚ, tm_minimum_prop.lo ≤ set_float_prop tm_minimum_prop v ∧
      set_float_prop tm_minimum_prop v ≤ tm_minimum_prop.hi) ∧
    (∀ v : ℚ, tm_maximum_prop.lo ≤ set_float_prop tm_maximum_prop v ∧
      set_float_prop tm_maximum_prop v ≤ tm_maximum_prop.hi) ∧
    (set_float_prop tm_minimum_prop 1 = 1 ∧ set_float_prop tm_maximum_prop 0 = 0) ∧
    ∀ weights : List ℚ, (stretch_squeeze_values 1 0 weights).length = weights.length := by
  refine ⟨?_, ?_, ⟨?_, ?_⟩, ?_⟩
  · intro v
    rw [set_float_prop, tm_minimum_prop]
    constructor <;> split_ifs with h1 h2 <;> simp_all
  · intro v
    rw [set_float_prop, tm_maximum_prop]
    constructor <;> split_ifs with h1 h2 <;> simp_all
  · rw [set_float_prop, tm_minimum_prop, if_neg (by norm_num), if_neg (by norm_num)]
  · rw [set_float_prop, tm_maximum_prop, if_neg (by norm_num), if_neg (by norm_num)]
  · intro weights
    rw [stretch_squeeze_values, List.length_map]

/-- Counterexample to C4 as stated: in a scene holding `mismatched_mesh` (whose
cached rest edge-length table is shorter than its edge count) followed by the
healthy `intact_mesh`, the sweep does not skip only the offending mesh — the
uncaught IndexError aborts the whole per-scene sweep, so the intact mesh (which
on its own computes `.ok [(0, 0), (0, 0)]`) produces no output either. -/
theorem claim_C4_counterexample :
    tm_update_for intact_mesh = .ok [(0, 0), (0, 0)] ∧
    tm_update_sweep [mismatched_mesh, intact_mesh] = ([], some "IndexError") := by
  exact ⟨tm_update_for_intact,
    tm_update_sweep_cons_error mismatched_mesh [intact_mesh] "IndexError"
      tm_update_for_mismatched⟩

/-- C4 corrected: when the cached rest edge-length table is shorter than
`num_edges` (topology mismatch after caching), the edge loop raises an
IndexError that no handler catches; it propagates through `tm_update` into
`tm_update_handler`'s scene loop and aborts the whole per-scene sweep for that
tick — only meshes iterated before the offending one produce output, while the
offending mesh and every mesh after it are left with their previously written
attributes stale.  The sweep does not merely skip the offending mesh. -/
theorem claim_C4 (pre post : List MeshInput) (bad : MeshInput) (e : String)
    (hpre : ∀ m ∈ pre, ∃ out, tm_update_for m = .ok out)
    (hbad : tm_update_for bad = .error e) :
    (∀ m : MeshInput, m.original_edge_lengths.length < m.num_edges →
      tm_update_for m = .error "IndexError") ∧
    (tm_update_sweep (pre ++ bad :: post)).2 = some e ∧
    (tm_update_sweep (pre ++ bad :: post)).1.length = pre.length := by
  refine ⟨fun m hm => tm_update_for_orig_short m hm, ?_⟩
  induction pre with
  | nil =>
    rw [List.nil_append, tm_update_sweep_cons_error bad post e hbad]
    exact ⟨rfl, rfl⟩
  | cons m rest ih =>
    obtain ⟨out, hout⟩ := hpre m (List.mem_cons_self m rest)
    obtain ⟨ih2, ih1⟩ := ih fun x hx => hpre x (List.mem_cons_of_mem m hx)
    rw [List.cons_append, tm_update_sweep_cons_ok m (rest ++ bad :: post) out hout]
    exact ⟨ih2, by rw [List.length_cons, ih1]; rfl⟩

/-- Witness for C4: the scene `[intact_mesh, mismatched_mesh]` — the healthy
mesh precedes the offending one, so exactly one output is produced and the
sweep ends in the propagated IndexError. -/
theorem claim_C4_witness :
    (∀ m ∈ [intact_mesh], ∃ out, tm_update_for m = .ok out) ∧
    tm_update_for mismatched_mesh = .error "IndexError" ∧
    ((∀ m : MeshInput, m.original_edge_lengths.length < m.num_edges →
      tm_update_for m = .error "IndexError") ∧
    (tm_update_sweep ([intact_mesh] ++ mismatched_mesh :: [])).2 = some "IndexError" ∧
    (tm_update_sweep ([intact_mesh] ++ mismatched_mesh :: [])).1.length =
      ([intact_mesh] : List MeshInput).length) := by
  have hpre : ∀ m ∈ [intact_mesh], ∃ out, tm_update_for m = .ok out := by
    intro m hm
    rw [List.mem_singleton] at hm
    exact ⟨[(0, 0), (0, 0)], hm ▸ tm_update_for_intact⟩
  exact ⟨hpre, tm_update_for_mismatched,
    claim_C4 [intact_mesh] [] mismatched_mesh "IndexError" hpre tm_update_for_mismatched⟩

/-- C8: when color output is enabled, every loop corner `c` that the
topology-derived corner-to-vertex mapping sends to vertex `v` receives
`cornerColors[c] = (stretch[v], squeeze[v], 0, 1)`, and all corners mapped to
the same vertex receive an identical color — the expansion is a pure broadcast
through `calculate_vertex_color_index_mapping`. -/
theorem claim_C8 (mini maxi : ℚ) (ws : List ℚ) (polygons : List Polygon)
    (n : ℕ) (cs : List (ℚ × ℚ × ℚ × ℚ))
    (h : corner_colors_loop (vertex_colors_of mini maxi ws)
      (calculate_vertex_color_index_mapping polygons) n = some cs) :
    ∀ c v, c < n → (calculate_vertex_color_index_mapping polygons).get? c = some v →
      (∃ w, ws.get? v = some w ∧
        cs.get? c = some ((stretch_squeeze_of_weight mini maxi w).1,
          (stretch_squeeze_of_weight mini maxi w).2, 0, 1)) ∧
      ∀ c2, c2 < n → (calculate_vertex_color_index_mapping polygons).get? c2 = some v →
        cs.get? c2 = cs.get? c := by
  obtain ⟨hlen, hval⟩ := corner_colors_loop_spec (vertex_colors_of mini maxi ws)
    (calculate_vertex_color_index_mapping polygons) n cs h
  intro c v hc hcv
  have hcs : cs.get? c = (vertex_colors_of mini maxi ws).get? v := hval c v hc hcv
  constructor
  · have hclen : c < cs.length := by rw [hlen]; exact hc
    have hx : cs.get? c = some cs[c] := by
      rw [List.get?_eq_getElem?, List.getElem?_eq_getElem hclen]
    rw [hx] at hcs
    rw [vertex_colors_of, List.get?_map] at hcs
    cases hw : ws.get? v with
    | none => rw [hw] at hcs; exact absurd hcs (by simp)
    | some w =>
      rw [hw] at hcs
      simp only [Option.map_some'] at hcs
      exact ⟨w, rfl, by rw [hx]; exact hcs⟩
  · intro c2 hc2 hcv2
    rw [hval c2 v hc2 hcv2, hcs]

/-- Witness for C8: one triangle whose corners map to vertices `[0, 1, 0]`,
with weights `[1/2, -1/4]`: corners `0` and `2` share vertex `0` and receive
the identical color `(1/2, 0, 0, 1)`. -/
theorem claim_C8_witness :
    corner_colors_loop (vertex_colors_of 0 1 [1/2, -1/4])
      (calculate_vertex_color_index_mapping [⟨[0, 1, 2], [0, 1, 0]⟩]) 3 =
      some [(1/2, 0, 0, 1), (0, 1/4, 0, 1), (1/2, 0, 0, 1)] ∧
    ∀ c v, c < 3 →
      (calculate_vertex_color_index_mapping [⟨[0, 1, 2], [0, 1, 0]⟩]).get? c = some v →
      (∃ w, ([1/2, -1/4] : List ℚ).get? v = some w ∧
        ([(1/2, 0, 0, 1), (0, 1/4, 0, 1), (1/2, 0, 0, 1)] :
            List (ℚ × ℚ × ℚ × ℚ)).get? c =
          some ((stretch_squeeze_of_weight 0 1 w).1,
            (stretch_squeeze_of_weight 0 1 w).2, 0, 1)) ∧
      ∀ c2, c2 < 3 →
        (calculate_vertex_color_index_mapping [⟨[0, 1, 2], [0, 1, 0]⟩]).get? c2 = some v →
        ([(1/2, 0, 0, 1), (0, 1/4, 0, 1), (1/2, 0, 0, 1)] :
            List (ℚ × ℚ × ℚ × ℚ)).get? c2 =
          ([(1/2, 0, 0, 1), (0, 1/4, 0, 1), (1/2, 0, 0, 1)] :
            List (ℚ × ℚ × ℚ × ℚ)).get? c := by
  have h : corner_colors_loop (vertex_colors_of 0 1 [1/2, -1/4])
      (calculate_vertex_color_index_mapping [⟨[0, 1, 2], [0, 1, 0]⟩]) 3 =
      some [(1/2, 0, 0, 1), (0, 1/4, 0, 1), (1/2, 0, 0, 1)] := by
    simp [corner_colors_loop, vertex_colors_of, calculate_vertex_color_index_mapping,
      stretch_squeeze_of_weight, clamp, List.range_succ]
    norm_num
  exact ⟨h, claim_C8 0 1 [1/2, -1/4] [⟨[0, 1, 2], [0, 1, 0]⟩] 3
    [(1/2, 0, 0, 1), (0, 1/4, 0, 1), (1/2, 0, 0, 1)] h⟩

/-- C9: with caching enabled, an existing entry is reused unchanged and the
rest edge lengths are not recomputed on that frame; a rebuild happens inside
`tm_update` exactly when the entry is missing, an explicit refresh
(`update_geometry_cache_for_object` with the flag on) stores the freshly
measured rest edge lengths plus the corner-to-vertex mapping, and calling it
with the flag off (toggling caching off) removes the mesh's entry. -/
theorem claim_C9 (cache : Cache) (obj : BObject) :
    (obj.tm_enable_geometry_cache = true →
      ∀ gd, cache_get cache obj.id = some gd →
        tm_update_cache_phase cache obj = (gd, cache, false)) ∧
    (obj.tm_enable_geometry_cache = true →
      cache_get cache obj.id = none →
        tm_update_cache_phase cache obj =
          (geometry_data_of obj, update_geometry_cache_for_object cache obj, true)) ∧
    (obj.tm_enable_geometry_cache = true →
      cache_get (update_geometry_cache_for_object cache obj) obj.id =
        some (geometry_data_of obj)) ∧
    (obj.tm_enable_geometry_cache = false →
      cache_get (update_geometry_cache_for_object cache obj) obj.id = none) ∧
    (geometry_data_of obj).original_edge_lengths = calculate_original_edge_lengths obj ∧
    ∀ i, i < obj.num_edges →
      (calculate_original_edge_lengths obj).get? i = some (obj.rest_edge_length i) := by
  refine ⟨?_, ?_, ?_, ?_, rfl, ?_⟩
  · intro he gd hgd
    rw [tm_update_cache_phase, if_pos he, hgd]
  · intro he hnone
    rw [tm_update_cache_phase, if_pos he, hnone,
      update_geometry_cache_for_object, if_pos he]
    show ((cache_get (cache_set cache obj.id (geometry_data_of obj)) obj.id).getD
      (geometry_data_of obj), cache_set cache obj.id (geometry_data_of obj), true) = _
    rw [cache_get_set_self, Option.getD_some]
  · intro he
    rw [update_geometry_cache_for_object, if_pos he, cache_get_set_self]
  · intro he
    rw [update_geometry_cache_for_object, he]
    simp only [Bool.false_eq_true, if_false]
    exact cache_get_del_self cache obj.id
  · intro i hi
    rw [calculate_original_edge_lengths, List.get?_map, List.get?_range hi, Option.map_some']

/-- Witness for C9: a cache already holding an entry for `test_obj` is reused
unchanged with no recomputation. -/
theorem claim_C9_witness :
    test_obj.tm_enable_geometry_cache = true ∧
    cache_get [(5, GeometryData.mk [9] [7])] test_obj.id = some (GeometryData.mk [9] [7]) ∧
    tm_update_cache_phase [(5, GeometryData.mk [9] [7])] test_obj =
      (GeometryData.mk [9] [7], [(5, GeometryData.mk [9] [7])], false) :=
  ⟨rfl, rfl,
    (claim_C9 [(5, GeometryData.mk [9] [7])] test_obj).1 rfl (GeometryData.mk [9] [7]) rfl⟩

end Tensionmap
